import Mathlib

/-!
Verification of the edge helper module of the dualgraph_shp repository.

The module operates on a dual graph (nodes carrying attribute maps, an
undirected edge list) and a feature table (rows carrying a key column, a
geometry, and further string columns).  We embed the graph as a node list
with a total attribute map and an edge list in iteration order, the
feature table as a list of rows, and the pandas dictionaries as functions
built by left folds of pointwise updates.  Geometry is opaque: the type
of geometries and the centroid and intersection operations are
parameters.  A Python KeyError on a missing dictionary key is modelled by
Option, and a networkx error on removing an absent edge by Except.
-/

/-- A feature-table row: string-valued columns addressed by name, plus the
geometry column.  The column map is total, mirroring a pandas row where
the relevant columns exist. -/
structure GRow (γ : Type) where
  cols : String → String
  geometry : γ

/-- A dual graph: node identifiers in iteration order, a total map from
node and attribute name to the attribute value, and the undirected edge
list in iteration order (each edge stored once, in one orientation). -/
structure GGraph where
  nodes : List Int
  attrs : Int → String → String
  edges : List (Int × Int)

/-- Linear scan of a node list, returning the first node whose key
attribute equals the target, and the sentinel -1 when none does.  This is
the loop body of find_node_by_key. -/
def findAux (a : Int → String → String) (keyval key : String) : List Int → Int
  | [] => -1
  | n :: rest => if a n key = keyval then n else findAux a keyval key rest

/-- Translation of find_node_by_key: scan the nodes of the graph for one
whose key attribute equals keyval, returning -1 on failure. -/
def find_node_by_key (keyval : String) (G : GGraph) (key : String) : Int :=
  findAux G.attrs keyval key G.nodes

/-- The dictionary-building loop shared by edges_geoms,
edges_geoms_endpoints and shared_boundaries_gdf: iterate over the feature
rows and assign d[row[key]] := f row, so that a later row overwrites an
earlier one with the same key value.  The dictionary is a function to
Option, none meaning the key is absent (a Python KeyError on lookup). -/
def dictFold (f : GRow γ → α) (shp : List (GRow γ)) (key : String) : String → Option α :=
  shp.foldl (fun d r => fun k => if k = r.cols key then some (f r) else d k) (fun _ => none)

/-- The key-to-geometry dictionary: key_dict[row[key]] = row[geometry]. -/
def buildKeyDict (shp : List (GRow γ)) (key : String) : String → Option γ :=
  dictFold (fun r => r.geometry) shp key

/-- The key-to-endpoint-label dictionary of the _endpoints variants:
endpoint_dict[row[key]] = row[endpoints]. -/
def buildEndpointDict (shp : List (GRow γ)) (key ep : String) : String → Option String :=
  dictFold (fun r => r.cols ep) shp key

/-- A list comprehension performing two dictionary lookups per element,
as in the geoms and endpoints comprehensions of edges_geoms: any missing
key makes the whole computation fail (KeyError). -/
def lookupPairs (d : String → Option α) : List (String × String) → Option (List (α × α))
  | [] => some []
  | kk :: rest =>
    match d kk.1, d kk.2, lookupPairs d rest with
    | some g1, some g2, some gs => some ((g1, g2) :: gs)
    | _, _, _ => none

/-- The keys comprehension of edges_geoms: for each edge (u, v) of the
graph, the pair of key-attribute values of its two endpoint nodes, in the
native edge iteration order. -/
def edgeKeys (G : GGraph) (key : String) : List (String × String) :=
  G.edges.map (fun e => (G.attrs e.1 key, G.attrs e.2 key))

/-- Translation of edges_geoms: build the key dictionary, then resolve
the geometries of the two endpoints of every edge. -/
def edges_geoms (G : GGraph) (shp : List (GRow γ)) (key : String) :
    Option (List (γ × γ)) :=
  lookupPairs (buildKeyDict shp key) (edgeKeys G key)

/-- Translation of edges_to_gdf: one LineString per edge, from the
centroid of the first geometry to the centroid of the second.  A
LineString is embedded as its list of points; the centroid operation of
the geometry library is a parameter. -/
def edges_to_gdf (c : γ → δ) (G : GGraph) (shp : List (GRow γ)) (key : String) :
    Option (List (List δ)) :=
  (edges_geoms G shp key).map (fun gs => gs.map (fun p => [c p.1, c p.2]))

/-- Translation of edges_geoms_endpoints: as edges_geoms, and also
resolve the endpoint-label values of the two endpoints of every edge. -/
def edges_geoms_endpoints (G : GGraph) (shp : List (GRow γ)) (ep key : String) :
    Option (List (γ × γ) × List (String × String)) :=
  match lookupPairs (buildKeyDict shp key) (edgeKeys G key),
      lookupPairs (buildEndpointDict shp key ep) (edgeKeys G key) with
  | some gs, some es => some (gs, es)
  | _, _ => none

/-- Translation of edges_to_gdf_endpoints: rows of endpoint_u,
endpoint_v and the centroid-to-centroid LineString, one per edge.  The
source first unpacks the endpoint list into the two columns, as in
ends_u, ends_v = zip(*endpoints); on an edgeless graph the endpoint list
is empty and that unpacking raises a ValueError, modelled here by none.
For a nonempty endpoint list the later zip of the two columns with the
line column recombines the rows unchanged. -/
def edges_to_gdf_endpoints (c : γ → δ) (G : GGraph) (shp : List (GRow γ))
    (ep key : String) : Option (List (String × String × List δ)) :=
  match edges_geoms_endpoints G shp ep key with
  | none => none
  | some p =>
    match p.2 with
    | [] => none
    | _ :: _ =>
      some ((p.2.zip (p.1.map (fun q => [c q.1, c q.2]))).map (fun x => (x.1.1, x.1.2, x.2)))

/-- Translation of shared_boundaries_gdf: re-resolve each edge row of the
endpoint-labelled table through find_node_by_key, look the two geometries
up in the key dictionary, intersect them, and carry the endpoint columns
over to the output.  The intersection operation is a parameter. -/
def shared_boundaries_gdf (i : γ → γ → γ) (G : GGraph)
    (g_shp : List (String × String)) (shp : List (GRow γ)) (key : String) :
    Option (List (γ × String × String)) :=
  let ns := g_shp.map (fun uv => (find_node_by_key uv.1 G key, find_node_by_key uv.2 G key))
  let ks := ns.map (fun nn => (G.attrs nn.1 key, G.attrs nn.2 key))
  (lookupPairs (buildKeyDict shp key) ks).map
    (fun gs => (gs.map (fun p => i p.1 p.2)).zip g_shp)

/-- Edge membership in the networkx sense: the unordered pair is present
in the edge list in either orientation. -/
def hasEdge (G : GGraph) (u v : Int) : Bool :=
  G.edges.any (fun e => (e.1 == u && e.2 == v) || (e.1 == v && e.2 == u))

/-- Registration of a node, as networkx add_edge performs it: a node
absent from the graph is silently appended to the node list. -/
def addNode (G : GGraph) (u : Int) : GGraph :=
  if u ∈ G.nodes then G else { G with nodes := G.nodes ++ [u] }

/-- networkx Graph.add_edge: nodes absent from the graph are silently
added, and the edge is appended when not already present.  Never fails. -/
def add_edge (G : GGraph) (u v : Int) : GGraph :=
  if hasEdge (addNode (addNode G u) v) u v then addNode (addNode G u) v
  else { addNode (addNode G u) v with edges := (addNode (addNode G u) v).edges ++ [(u, v)] }

/-- networkx Graph.remove_edge: removes the edge in either orientation,
and raises when the edge is not in the graph. -/
def remove_edge (G : GGraph) (u v : Int) : Except String GGraph :=
  if hasEdge G u v then
    Except.ok { G with edges := G.edges.filter (fun e => !((e.1 == u && e.2 == v) || (e.1 == v && e.2 == u))) }
  else Except.error "edge not in graph"

/-- Translation of remove_edge_by_feature: resolve both key values, then
remove the edge between the resolved nodes. -/
def remove_edge_by_feature (G : GGraph) (u_key v_key key : String) :
    Except String GGraph :=
  let u := find_node_by_key u_key G key
  let v := find_node_by_key v_key G key
  remove_edge G u v

/-- Translation of add_edge_by_feature: resolve both key values, then add
an edge between the resolved values.  The Except return type mirrors the
remove twin; the translation always returns ok because networkx add_edge
cannot fail. -/
def add_edge_by_feature (G : GGraph) (u_key v_key key : String) :
    Except String GGraph :=
  let u := find_node_by_key u_key G key
  let v := find_node_by_key v_key G key
  Except.ok (add_edge G u v)

/-- A row of an endpoint-labelled edge table: the two endpoint-label
columns and the further (integer-valued) mark columns, none meaning the
column has no value stored in this row. -/
structure ERow where
  endpoint_u : String
  endpoint_v : String
  cols : String → Option Int

/-- An endpoint-labelled edge table: its list of column names (the result
of list(g_shp)) and its rows. -/
structure ETable where
  columns : List String
  rows : List ERow

/-- Assignment of a value to one column of one row. -/
def setCol (r : ERow) (col : String) (val : Int) : ERow :=
  { r with cols := fun c => if c = col then some val else r.cols c }

/-- The initialization step of mark_edges: if the mark column does not
already exist it is created and initialized to 0 in every row. -/
def initCol (t : ETable) (col : String) : ETable :=
  if col ∈ t.columns then t
  else { columns := t.columns ++ [col], rows := t.rows.map (fun r => setCol r col 0) }

/-- The first loc-assignment of mark_edges for one mark pair (u, v):
rows stored as (u, v) get the value. -/
def markRowFst (u v col : String) (val : Int) (r : ERow) : ERow :=
  if r.endpoint_u = u ∧ r.endpoint_v = v then setCol r col val else r

/-- The second loc-assignment of mark_edges, exactly as the source writes
it: both endpoint columns are compared against u. -/
def markRowSnd (u col : String) (val : Int) (r : ERow) : ERow :=
  if r.endpoint_v = u ∧ r.endpoint_u = u then setCol r col val else r

/-- The per-row effect of the two loc-assignments of mark_edges for one
mark pair (u, v), first assignment then second. -/
def markRow (u v col : String) (val : Int) (r : ERow) : ERow :=
  markRowSnd u col val (markRowFst u v col val r)

/-- Translation of mark_edges (single-value form): ensure the column
exists, then apply the two loc-assignments for every mark pair. -/
def mark_edges (t : ETable) (marks : List (String × String)) (col : String)
    (val : Int) : ETable :=
  let t0 := initCol t col
  marks.foldl (fun s uv => { s with rows := s.rows.map (markRow uv.1 uv.2 col val) }) t0

/-- Translation of mark_edges_dict: as mark_edges, with a per-pair value;
the dict is embedded as an association list in insertion order. -/
def mark_edges_dict (t : ETable) (marks : List ((String × String) × Int))
    (col : String) : ETable :=
  let t0 := initCol t col
  marks.foldl (fun s kv => { s with rows := s.rows.map (markRow kv.1.1 kv.1.2 col kv.2) }) t0

/-- The match condition of mark_edges for one row, exactly as the two
source conditions test it: stored as (u, v), or the second (literal)
condition with both endpoint columns equal to u. -/
abbrev rowMatches (u v : String) (r : ERow) : Prop :=
  (r.endpoint_u = u ∧ r.endpoint_v = v) ∨ (r.endpoint_v = u ∧ r.endpoint_u = u)

/-- Concrete fixture: a two-node graph with key attribute values a and b
and one edge, used to exercise lookups and the edge editors. -/
def exAttrs2 : Int → String → String :=
  fun n _ => if n = 0 then "a" else if n = 1 then "b" else "z"

/-- Concrete two-node graph with the single edge (0, 1). -/
def exG2 : GGraph :=
  { nodes := [0, 1], attrs := exAttrs2, edges := [(0, 1)] }

/-- Concrete two-node graph with no edges. -/
def exG6 : GGraph :=
  { nodes := [0, 1], attrs := exAttrs2, edges := [] }

/-- Concrete three-node graph whose nodes 1 and 2 both carry the key
value d, to exercise the duplicate-key lookup. -/
def exG10 : GGraph :=
  { nodes := [0, 1, 2], attrs := fun n _ => if n = 0 then "x" else "d",
    edges := [] }

/-- Concrete three-node path graph with key values 1, 2, 3. -/
def exG3 : GGraph :=
  { nodes := [0, 1, 2],
    attrs := fun n _ => if n = 0 then "1" else if n = 1 then "2" else "3",
    edges := [(0, 1), (1, 2)] }

/-- Concrete feature table for exG3: keys 1, 2, 3 with Nat geometries. -/
def exShp3 : List (GRow Nat) :=
  [⟨fun c => if c = "k" then "1" else "p", 10⟩,
   ⟨fun c => if c = "k" then "2" else "q", 20⟩,
   ⟨fun c => if c = "k" then "3" else "s", 30⟩]

/-- Concrete feature table covering the key values a and b of the
edgeless graph exG6, with Nat geometries. -/
def exShpAB : List (GRow Nat) :=
  [⟨fun c => if c = "k" then "a" else "w", 1⟩,
   ⟨fun c => if c = "k" then "b" else "w", 2⟩]

/-- Concrete edge-table row stored in the order (b, a). -/
def exRowBA : ERow :=
  { endpoint_u := "b", endpoint_v := "a", cols := fun _ => none }

/-- Concrete edge table with the single row (b, a) and no mark column. -/
def exTblBA : ETable :=
  { columns := ["endpoint_u", "endpoint_v", "geometry"], rows := [exRowBA] }

/-- Concrete edge-table row stored in the order (a, b). -/
def exRowAB : ERow :=
  { endpoint_u := "a", endpoint_v := "b", cols := fun _ => none }

/-- Concrete edge table with the single row (a, b) and no mark column. -/
def exTblAB : ETable :=
  { columns := ["endpoint_u", "endpoint_v", "geometry"], rows := [exRowAB] }

/-- Concrete edge table whose mark column m already exists and whose
single row (a, b) matches no mark pair of the form (x, y). -/
def exTblM : ETable :=
  { columns := ["endpoint_u", "endpoint_v", "geometry", "m"],
    rows := [{ endpoint_u := "a", endpoint_v := "b",
               cols := fun c => if c = "m" then some 3 else none }] }

/-- Characterization of the dictionary-building fold: looking a key up
yields the value of the last matching row, and the initial dictionary
otherwise. -/
theorem dictFold_loop (f : GRow γ → α) (key : String) :
    ∀ (shp : List (GRow γ)) (d : String → Option α) (k : String),
      shp.foldl (fun d r => fun k2 => if k2 = r.cols key then some (f r) else d k2) d k
        = match shp.reverse.find? (fun r => decide (k = r.cols key)) with
          | some r => some (f r)
          | none => d k := by
  intro shp
  induction shp with
  | nil => intro d k; rfl
  | cons r rest ih =>
    intro d k
    rw [List.foldl_cons, ih, List.reverse_cons, List.find?_append]
    cases hfind : rest.reverse.find? (fun r2 => decide (k = r2.cols key)) with
    | some r2 => simp
    | none =>
      by_cases h : k = r.cols key
      · simp [h]
      · simp [h]

/-- The dictionary maps a key to the projection of the last row of the
table whose key column holds it, and to none when no row does. -/
theorem dictFold_eq (f : GRow γ → α) (shp : List (GRow γ)) (key k : String) :
    dictFold f shp key k
      = (shp.reverse.find? (fun r => decide (k = r.cols key))).map (fun r => f r) := by
  unfold dictFold
  rw [dictFold_loop]
  cases shp.reverse.find? (fun r => decide (k = r.cols key)) <;> rfl

/-- A key carried by some row of the table is present in the dictionary. -/
theorem dictFold_isSome (f : GRow γ → α) (shp : List (GRow γ)) (key k : String)
    (h : ∃ r ∈ shp, r.cols key = k) : (dictFold f shp key k).isSome := by
  rw [dictFold_eq]
  obtain ⟨r, hr, hk⟩ := h
  have h3 : (shp.reverse.find? (fun r2 => decide (k = r2.cols key))).isSome :=
    List.find?_isSome.mpr ⟨r, List.mem_reverse.mpr hr, by simp [hk]⟩
  cases hfs : shp.reverse.find? (fun r2 => decide (k = r2.cols key)) with
  | none => rw [hfs] at h3; simp at h3
  | some r2 => rfl

/-- When every key pair of the list is present in the dictionary, the
double-lookup comprehension succeeds, preserves the length, and returns
the two looked-up values at every index. -/
theorem lookupPairs_spec (d : String → Option α) :
    ∀ (l : List (String × String)),
      (∀ kk ∈ l, (d kk.1).isSome ∧ (d kk.2).isSome) →
      ∃ gs, lookupPairs d l = some gs ∧ gs.length = l.length ∧
        ∀ (i : Nat) (k1 k2 : String), l[i]? = some (k1, k2) →
          ∃ g1 g2, d k1 = some g1 ∧ d k2 = some g2 ∧ gs[i]? = some (g1, g2) := by
  intro l
  induction l with
  | nil =>
    intro _
    refine ⟨[], rfl, rfl, ?_⟩
    intro i k1 k2 h
    simp at h
  | cons kk rest ih =>
    intro h
    obtain ⟨a, b⟩ := kk
    obtain ⟨h1, h2⟩ := h (a, b) (List.mem_cons_self (a, b) rest)
    obtain ⟨g1, hg1⟩ := Option.isSome_iff_exists.mp h1
    obtain ⟨g2, hg2⟩ := Option.isSome_iff_exists.mp h2
    obtain ⟨gs, hgs, hlen, hidx⟩ := ih (fun kk2 hm => h kk2 (List.mem_cons_of_mem (a, b) hm))
    refine ⟨(g1, g2) :: gs, ?_, ?_, ?_⟩
    · show (match d a, d b, lookupPairs d rest with
        | some g1, some g2, some gs => some ((g1, g2) :: gs)
        | _, _, _ => none) = some ((g1, g2) :: gs)
      rw [hg1, hg2, hgs]
    · simp [hlen]
    · intro i k1 k2 hik
      cases i with
      | zero =>
        simp at hik
        obtain ⟨hik1, hik2⟩ := hik
        subst hik1
        subst hik2
        exact ⟨g1, g2, hg1, hg2, by simp⟩
      | succ j =>
        simp only [List.getElem?_cons_succ] at hik
        obtain ⟨g3, g4, hg3, hg4, hix⟩ := hidx j k1 k2 hik
        exact ⟨g3, g4, hg3, hg4, by simpa using hix⟩

/-- The linear scan returns the sentinel when no node matches. -/
theorem findAux_eq_neg (a : Int → String → String) (keyval key : String) :
    ∀ (l : List Int), (∀ n ∈ l, a n key ≠ keyval) → findAux a keyval key l = -1 := by
  intro l
  induction l with
  | nil => intro _; rfl
  | cons n rest ih =>
    intro h
    simp only [findAux, if_neg (h n (List.mem_cons_self n rest))]
    exact ih (fun m hm => h m (List.mem_cons_of_mem n hm))

/-- The linear scan returns the matching node when it is unique. -/
theorem findAux_eq_unique (a : Int → String → String) (keyval key : String) :
    ∀ (l : List Int) (n : Int), n ∈ l → a n key = keyval →
      (∀ m ∈ l, a m key = keyval → m = n) → findAux a keyval key l = n := by
  intro l
  induction l with
  | nil => intro n hn _ _; cases hn
  | cons p rest ih =>
    intro n hn hkey huniq
    by_cases hp : a p key = keyval
    · have hpn : p = n := huniq p (List.mem_cons_self p rest) hp
      subst hpn
      simp [findAux, hp]
    · have hn2 : n ∈ rest := by
        cases List.mem_cons.mp hn with
        | inl he => exact absurd (he ▸ hkey) hp
        | inr he => exact he
      simp only [findAux, if_neg hp]
      exact ih n hn2 hkey (fun m hm h2 => huniq m (List.mem_cons_of_mem p hm) h2)

/-- The linear scan returns the first matching entry of the list. -/
theorem findAux_first (a : Int → String → String) (keyval key : String) :
    ∀ (l : List Int) (i : Nat) (n : Int), l[i]? = some n → a n key = keyval →
      (∀ j, j < i → (l[j]?).map (fun m => a m key) ≠ some keyval) →
      findAux a keyval key l = n := by
  intro l
  induction l with
  | nil => intro i n h _ _; simp at h
  | cons p rest ih =>
    intro i n hget hkey hfirst
    cases i with
    | zero =>
      simp at hget
      subst hget
      simp [findAux, hkey]
    | succ j =>
      have hp : a p key ≠ keyval := by
        have h0 := hfirst 0 (Nat.succ_pos j)
        simpa using h0
      simp only [findAux, if_neg hp]
      refine ih j n (by simpa using hget) hkey ?_
      intro j2 hj2
      have h2 := hfirst (j2 + 1) (Nat.succ_lt_succ hj2)
      simpa using h2

/-- When some node matches, the scan returns a member of the list whose
key attribute is the target. -/
theorem findAux_resolves (a : Int → String → String) (keyval key : String) :
    ∀ (l : List Int), (∃ n ∈ l, a n key = keyval) →
      findAux a keyval key l ∈ l ∧ a (findAux a keyval key l) key = keyval := by
  intro l
  induction l with
  | nil => intro h; obtain ⟨n, hn, _⟩ := h; cases hn
  | cons p rest ih =>
    intro h
    by_cases hp : a p key = keyval
    · simp [findAux, hp]
    · simp only [findAux, if_neg hp]
      obtain ⟨n, hn, hkey⟩ := h
      have hn2 : n ∈ rest := by
        cases List.mem_cons.mp hn with
        | inl he => exact absurd (he ▸ hkey) hp
        | inr he => exact he
      obtain ⟨h1, h2⟩ := ih ⟨n, hn2, hkey⟩
      exact ⟨List.mem_cons_of_mem p h1, h2⟩

/-- Mapping a function that fixes every element of a list is the
identity. -/
theorem map_id_of_mem {f : α → α} :
    ∀ (l : List α), (∀ x ∈ l, f x = x) → l.map f = l := by
  intro l
  induction l with
  | nil => intro _; rfl
  | cons x rest ih =>
    intro h
    simp only [List.map_cons]
    rw [h x (List.mem_cons_self x rest), ih (fun y hy => h y (List.mem_cons_of_mem x hy))]

/-- Assigning a value to a column of a row stores it there. -/
theorem setCol_cols_self (r : ERow) (col : String) (val : Int) :
    (setCol r col val).cols col = some val := by
  simp [setCol]

/-- The first loc-assignment never changes the endpoint_u column. -/
theorem markRowFst_endpoint_u (u v col : String) (val : Int) (r : ERow) :
    (markRowFst u v col val r).endpoint_u = r.endpoint_u := by
  unfold markRowFst
  split <;> rfl

/-- The first loc-assignment never changes the endpoint_v column. -/
theorem markRowFst_endpoint_v (u v col : String) (val : Int) (r : ERow) :
    (markRowFst u v col val r).endpoint_v = r.endpoint_v := by
  unfold markRowFst
  split <;> rfl

/-- The second loc-assignment never changes the endpoint_u column. -/
theorem markRowSnd_endpoint_u (u col : String) (val : Int) (r : ERow) :
    (markRowSnd u col val r).endpoint_u = r.endpoint_u := by
  unfold markRowSnd
  split <;> rfl

/-- The second loc-assignment never changes the endpoint_v column. -/
theorem markRowSnd_endpoint_v (u col : String) (val : Int) (r : ERow) :
    (markRowSnd u col val r).endpoint_v = r.endpoint_v := by
  unfold markRowSnd
  split <;> rfl

/-- Marking a row never changes its endpoint_u column. -/
theorem markRow_endpoint_u (u v col : String) (val : Int) (r : ERow) :
    (markRow u v col val r).endpoint_u = r.endpoint_u := by
  unfold markRow
  rw [markRowSnd_endpoint_u, markRowFst_endpoint_u]

/-- Marking a row never changes its endpoint_v column. -/
theorem markRow_endpoint_v (u v col : String) (val : Int) (r : ERow) :
    (markRow u v col val r).endpoint_v = r.endpoint_v := by
  unfold markRow
  rw [markRowSnd_endpoint_v, markRowFst_endpoint_v]

/-- A row matched by neither loc condition is left unchanged. -/
theorem markRow_of_not_matches (u v col : String) (val : Int) (r : ERow)
    (h : ¬ rowMatches u v r) : markRow u v col val r = r := by
  unfold markRow markRowFst markRowSnd
  rw [if_neg (fun hc => h (Or.inl hc)), if_neg (fun hc => h (Or.inr hc))]

/-- A row satisfying the second loc condition gets the value. -/
theorem markRowSnd_cols_of (u col : String) (val : Int) (r : ERow)
    (h : r.endpoint_v = u ∧ r.endpoint_u = u) :
    (markRowSnd u col val r).cols col = some val := by
  unfold markRowSnd
  rw [if_pos h]
  exact setCol_cols_self r col val

/-- A row matched by either loc condition gets the value in the mark
column. -/
theorem markRow_cols_of_matches (u v col : String) (val : Int) (r : ERow)
    (h : rowMatches u v r) : (markRow u v col val r).cols col = some val := by
  cases h with
  | inl h1 =>
    unfold markRow markRowFst
    rw [if_pos h1]
    unfold markRowSnd
    split
    · exact setCol_cols_self _ col val
    · exact setCol_cols_self r col val
  | inr h2 =>
    unfold markRow
    apply markRowSnd_cols_of
    refine ⟨?_, ?_⟩
    · rw [markRowFst_endpoint_v]; exact h2.1
    · rw [markRowFst_endpoint_u]; exact h2.2

/-- The match condition only reads the endpoint columns. -/
theorem rowMatches_congr (u v : String) (r1 r2 : ERow)
    (hu : r1.endpoint_u = r2.endpoint_u) (hv : r1.endpoint_v = r2.endpoint_v) :
    rowMatches u v r1 ↔ rowMatches u v r2 := by
  unfold rowMatches
  rw [hu, hv]

/-- Every key pair of the edgeKeys list is covered by the key dictionary
when the table covers all node key values of a well-formed graph. -/
theorem edgeKeys_cov (G : GGraph) (shp : List (GRow γ)) (key : String)
    (hwf : ∀ e ∈ G.edges, e.1 ∈ G.nodes ∧ e.2 ∈ G.nodes)
    (hcov : ∀ n ∈ G.nodes, ∃ r ∈ shp, r.cols key = G.attrs n key) :
    ∀ kk ∈ edgeKeys G key,
      (buildKeyDict shp key kk.1).isSome ∧ (buildKeyDict shp key kk.2).isSome := by
  intro kk hkk
  obtain ⟨e, he, hekk⟩ := List.mem_map.mp hkk
  obtain ⟨h1, h2⟩ := hwf e he
  subst hekk
  exact ⟨dictFold_isSome _ _ _ _ (hcov e.1 h1), dictFold_isSome _ _ _ _ (hcov e.2 h2)⟩

/-- Every key pair of the edgeKeys list is covered by the endpoint-label
dictionary under the same hypotheses. -/
theorem edgeKeys_cov_ep (G : GGraph) (shp : List (GRow γ)) (key ep : String)
    (hwf : ∀ e ∈ G.edges, e.1 ∈ G.nodes ∧ e.2 ∈ G.nodes)
    (hcov : ∀ n ∈ G.nodes, ∃ r ∈ shp, r.cols key = G.attrs n key) :
    ∀ kk ∈ edgeKeys G key,
      (buildEndpointDict shp key ep kk.1).isSome ∧
        (buildEndpointDict shp key ep kk.2).isSome := by
  intro kk hkk
  obtain ⟨e, he, hekk⟩ := List.mem_map.mp hkk
  obtain ⟨h1, h2⟩ := hwf e he
  subst hekk
  exact ⟨dictFold_isSome _ _ _ _ (hcov e.1 h1), dictFold_isSome _ _ _ _ (hcov e.2 h2)⟩

/-- Registering a node never changes the edge list. -/
theorem addNode_edges (G : GGraph) (u : Int) : (addNode G u).edges = G.edges := by
  unfold addNode
  split <;> rfl

/-- Registering a node never changes the attribute map. -/
theorem addNode_attrs (G : GGraph) (u : Int) : (addNode G u).attrs = G.attrs := by
  unfold addNode
  split <;> rfl

/-- Registering a node already in the graph changes nothing. -/
theorem addNode_of_mem (G : GGraph) (u : Int) (h : u ∈ G.nodes) : addNode G u = G := by
  unfold addNode
  rw [if_pos h]

/-- Edge membership is untouched by node registration. -/
theorem hasEdge_addNode (G : GGraph) (w u v : Int) :
    hasEdge (addNode G w) u v = hasEdge G u v := by
  unfold hasEdge
  rw [addNode_edges]

/-- Adding an absent edge appends it to the edge list. -/
theorem add_edge_edges (G : GGraph) (u v : Int) (h : hasEdge G u v = false) :
    (add_edge G u v).edges = G.edges ++ [(u, v)] := by
  unfold add_edge
  rw [hasEdge_addNode, hasEdge_addNode, h]
  simp only [Bool.false_eq_true, if_false]
  rw [addNode_edges, addNode_edges]

/-- Adding an absent edge between nodes already in the graph only
appends the edge. -/
theorem add_edge_of_mem (G : GGraph) (u v : Int) (hu : u ∈ G.nodes)
    (hv : v ∈ G.nodes) (h : hasEdge G u v = false) :
    add_edge G u v = { G with edges := G.edges ++ [(u, v)] } := by
  unfold add_edge
  rw [addNode_of_mem G u hu, addNode_of_mem G v hv, h]
  simp only [Bool.false_eq_true, if_false]

/-- C9: the key-to-geometry and key-to-endpoint-label dictionaries are
built with no error signalled on duplicate key values (the builders are
total functions); a key value shared by several feature rows is mapped to
the geometry, respectively the endpoint label, of the last such row in
table iteration order — last write wins silently. -/
theorem keyed_index_last_write_wins (γ : Type) (shp : List (GRow γ)) (key ep k : String) :
    buildKeyDict shp key k
        = (shp.reverse.find? (fun r => decide (k = r.cols key))).map (fun r => r.geometry) ∧
      buildEndpointDict shp key ep k
        = (shp.reverse.find? (fun r => decide (k = r.cols key))).map (fun r => r.cols ep) :=
  ⟨dictFold_eq (fun r => r.geometry) shp key k, dictFold_eq (fun r => r.cols ep) shp key k⟩

/-- C5: find_node_by_key returns the sentinel -1 (a value, not a
signalled error) when no node carries the target value, and returns the
matching node when exactly one node carries it. -/
theorem find_node_unique_and_missing (G : GGraph) (keyval key : String) :
    ((∀ n ∈ G.nodes, G.attrs n key ≠ keyval) → find_node_by_key keyval G key = -1) ∧
    (∀ n : Int, n ∈ G.nodes → G.attrs n key = keyval →
      (∀ m ∈ G.nodes, G.attrs m key = keyval → m = n) →
      find_node_by_key keyval G key = n) :=
  ⟨fun h => findAux_eq_neg G.attrs keyval key G.nodes h,
   fun n hn hkey huniq => findAux_eq_unique G.attrs keyval key G.nodes n hn hkey huniq⟩

/-- Witness for C5 at the concrete graph exG2: value q is carried by no
node and yields -1; value b is carried by exactly node 1, which is
returned. -/
theorem find_node_unique_and_missing_witness :
    find_node_by_key "q" exG2 "k" = -1 ∧ find_node_by_key "b" exG2 "k" = 1 :=
  ⟨(find_node_unique_and_missing exG2 "q" "k").1 (by decide),
   (find_node_unique_and_missing exG2 "b" "k").2 1 (by decide) (by decide) (by decide)⟩

/-- C10: when several nodes carry the target value, find_node_by_key
returns the first matching node in the node iteration order: if the entry
at index i matches and no earlier entry does, that entry is returned. -/
theorem find_node_first_match (G : GGraph) (keyval key : String) (i : Nat) (n : Int)
    (hn : G.nodes[i]? = some n) (hmatch : G.attrs n key = keyval)
    (hfirst : ∀ j, j < i → (G.nodes[j]?).map (fun m => G.attrs m key) ≠ some keyval) :
    find_node_by_key keyval G key = n :=
  findAux_first G.attrs keyval key G.nodes i n hn hmatch hfirst

/-- Witness for C10 at the concrete graph exG10, where nodes 1 and 2 both
carry the value d: the first of them in iteration order is returned. -/
theorem find_node_first_match_witness : find_node_by_key "d" exG10 "k" = 1 :=
  find_node_first_match exG10 "d" "k" 1 1 (by decide) (by decide) (by decide)

/-- C1 is a code defect: the source comment promises that a mark pair
(u, v) also marks rows stored in the reversed order (v, u), but the
second loc condition compares both endpoint columns against u.  At the
concrete table whose single row is stored as (b, a), marking the pair
(a, b) leaves the mark column at its freshly initialized 0, while the
same row stored as (a, b) does get the value 1. -/
theorem mark_edges_reversed_pair_unmarked :
    (mark_edges exTblAB [("a", "b")] "marked" 1).rows.map (fun r => r.cols "marked")
        = [some 1] ∧
      (mark_edges exTblBA [("a", "b")] "marked" 1).rows.map (fun r => r.cols "marked")
        = [some 0] := by
  constructor
  · decide
  · decide

/-- C2 (amended): when no edge exists between the two resolved values —
in particular when a key value resolves to the NotFound sentinel -1 and
the sentinel carries no such incident edge — remove_edge_by_feature
signals an error, while add_edge_by_feature signals no error: it returns
a graph in which an edge between the resolved values (sentinel included)
has been silently appended. -/
theorem edge_editor_error_cases (G : GGraph) (u_key v_key key : String)
    (h : hasEdge G (find_node_by_key u_key G key) (find_node_by_key v_key G key) = false) :
    remove_edge_by_feature G u_key v_key key = Except.error "edge not in graph" ∧
    ∃ G2, add_edge_by_feature G u_key v_key key = Except.ok G2 ∧
      G2.edges = G.edges ++ [(find_node_by_key u_key G key, find_node_by_key v_key G key)] := by
  constructor
  · show remove_edge G (find_node_by_key u_key G key) (find_node_by_key v_key G key)
        = Except.error "edge not in graph"
    unfold remove_edge
    rw [h]
    simp only [Bool.false_eq_true, if_false]
  · refine ⟨add_edge G (find_node_by_key u_key G key) (find_node_by_key v_key G key),
      rfl, ?_⟩
    exact add_edge_edges G _ _ h

/-- Witness for C2 (amended) at the concrete graph exG2: the key value c
resolves to the sentinel -1, removal signals the error, and addition
returns a graph with the extra edge (0, -1). -/
theorem edge_editor_error_cases_witness :
    remove_edge_by_feature exG2 "a" "c" "k" = Except.error "edge not in graph" ∧
    ∃ G2, add_edge_by_feature exG2 "a" "c" "k" = Except.ok G2 ∧
      G2.edges = exG2.edges ++ [(find_node_by_key "a" exG2 "k", find_node_by_key "c" exG2 "k")] :=
  edge_editor_error_cases exG2 "a" "c" "k" (by decide)

/-- Counterexample to C2 as stated: at the concrete graph exG2 the key
value c resolves to NotFound (-1), yet add_edge_by_feature does not
signal an error — it returns ok, with the sentinel silently added as a
node and an edge (0, -1) appended. -/
theorem add_edge_notfound_no_error :
    find_node_by_key "c" exG2 "k" = -1 ∧
    (add_edge_by_feature exG2 "a" "c" "k").toOption.map (fun g => g.edges)
        = some [(0, 1), (0, -1)] := by
  constructor
  · decide
  · decide

/-- Reduction of mark_edges at a single mark pair. -/
theorem mark_edges_single (t : ETable) (u v col : String) (w : Int) :
    mark_edges t [(u, v)] col w
      = { columns := (initCol t col).columns,
          rows := (initCol t col).rows.map (markRow u v col w) } := rfl

/-- Removing a just-appended absent edge restores the original graph. -/
theorem remove_added (G : GGraph) (u v : Int) (hedge : hasEdge G u v = false) :
    remove_edge { G with edges := G.edges ++ [(u, v)] } u v = Except.ok G := by
  have hHas : hasEdge { G with edges := G.edges ++ [(u, v)] } u v = true := by
    simp [hasEdge]
  have hkept : (G.edges ++ [(u, v)]).filter
      (fun e => !((e.1 == u && e.2 == v) || (e.1 == v && e.2 == u))) = G.edges := by
    rw [List.filter_append]
    have h1 : G.edges.filter
        (fun e => !((e.1 == u && e.2 == v) || (e.1 == v && e.2 == u))) = G.edges := by
      apply List.filter_eq_self.mpr
      intro e he
      have h2 := List.any_eq_false.mp hedge e he
      simp at h2 ⊢
      tauto
    have h3 : ([(u, v)] : List (Int × Int)).filter
        (fun e => !((e.1 == u && e.2 == v) || (e.1 == v && e.2 == u))) = [] := by
      simp
    rw [h1, h3, List.append_nil]
  unfold remove_edge
  rw [if_pos hHas, hkept]

/-- C3 (amended): under a feature table whose key column covers all node
key values of a well-formed graph, each of edges_geoms, edges_to_gdf and
edges_geoms_endpoints succeeds with exactly one row per graph edge;
edges_to_gdf_endpoints does so whenever the graph has at least one edge,
and on an edgeless graph it signals an error instead — the ValueError
raised by unpacking the zip of the empty endpoint list. -/
theorem edge_tables_row_count (γ δ : Type) (c : γ → δ) (G : GGraph)
    (shp : List (GRow γ)) (ep key : String)
    (hwf : ∀ e ∈ G.edges, e.1 ∈ G.nodes ∧ e.2 ∈ G.nodes)
    (hcov : ∀ n ∈ G.nodes, ∃ r ∈ shp, r.cols key = G.attrs n key) :
    (∃ l, edges_geoms G shp key = some l ∧ l.length = G.edges.length) ∧
    (∃ l, edges_to_gdf c G shp key = some l ∧ l.length = G.edges.length) ∧
    (∃ p, edges_geoms_endpoints G shp ep key = some p ∧
      p.1.length = G.edges.length ∧ p.2.length = G.edges.length) ∧
    (G.edges ≠ [] →
      ∃ l, edges_to_gdf_endpoints c G shp ep key = some l ∧ l.length = G.edges.length) ∧
    (G.edges = [] → edges_to_gdf_endpoints c G shp ep key = none) := by
  obtain ⟨gs, hgs, hglen, _⟩ := lookupPairs_spec (buildKeyDict shp key) (edgeKeys G key)
    (edgeKeys_cov G shp key hwf hcov)
  obtain ⟨es, hes, helen, _⟩ := lookupPairs_spec (buildEndpointDict shp key ep)
    (edgeKeys G key) (edgeKeys_cov_ep G shp key ep hwf hcov)
  have hklen : (edgeKeys G key).length = G.edges.length := by simp [edgeKeys]
  have hgeo : edges_geoms G shp key = some gs := hgs
  have hegp : edges_geoms_endpoints G shp ep key = some (gs, es) := by
    unfold edges_geoms_endpoints
    rw [hgs, hes]
  refine ⟨⟨gs, hgeo, by rw [hglen, hklen]⟩, ⟨gs.map (fun p => [c p.1, c p.2]), ?_, ?_⟩,
    ⟨(gs, es), hegp, by rw [hglen, hklen], by rw [helen, hklen]⟩, ?_, ?_⟩
  · unfold edges_to_gdf
    rw [hgeo]
    rfl
  · rw [List.length_map, hglen, hklen]
  · intro hne
    refine ⟨(es.zip (gs.map (fun q => [c q.1, c q.2]))).map (fun x => (x.1.1, x.1.2, x.2)),
      ?_, ?_⟩
    · unfold edges_to_gdf_endpoints
      rw [hegp]
      cases hes2 : es with
      | nil =>
        exfalso
        apply hne
        apply List.length_eq_zero.mp
        rw [← hklen, ← helen, hes2]
        rfl
      | cons e0 erest => rfl
    · rw [List.length_map, List.length_zip, List.length_map, hglen, helen, hklen]
      exact Nat.min_self _
  · intro hemp
    have hes0 : es = [] := by
      apply List.length_eq_zero.mp
      rw [helen, hklen, hemp]
      rfl
    unfold edges_to_gdf_endpoints
    rw [hegp, hes0]

/-- Witness for C3 at the concrete path graph exG3 and table exShp3: the
edge table has one row per each of the two edges, for edges_geoms and for
edges_to_gdf_endpoints on this graph with a nonempty edge list. -/
theorem edge_tables_row_count_witness :
    (∃ l, edges_geoms exG3 exShp3 "k" = some l ∧ l.length = exG3.edges.length) ∧
    (∃ l, edges_to_gdf_endpoints (fun g : Nat => g) exG3 exShp3 "g" "k" = some l ∧
      l.length = exG3.edges.length) := by
  have h := edge_tables_row_count Nat Nat (fun g => g) exG3 exShp3 "g" "k"
    (by decide) (by decide)
  exact ⟨h.1, h.2.2.2.1 (by decide)⟩

/-- Counterexample to C3 as stated: the edgeless graph exG6 is
well-formed and its node key values are fully covered by the table
exShpAB, yet edges_to_gdf_endpoints does not produce a zero-row table —
it fails, because the source unpacks the zip of the empty endpoint list
and raises a ValueError. -/
theorem edges_to_gdf_endpoints_empty_fails :
    (∀ e ∈ exG6.edges, e.1 ∈ exG6.nodes ∧ e.2 ∈ exG6.nodes) ∧
    (∀ n ∈ exG6.nodes, ∃ r ∈ exShpAB, r.cols "k" = exG6.attrs n "k") ∧
    edges_to_gdf_endpoints (fun g : Nat => g) exG6 exShpAB "g" "k" = none := by
  refine ⟨by decide, by decide, rfl⟩

/-- C4: under the same coverage hypotheses, edges_to_gdf succeeds, and
the row at each edge index i, for the edge (u, v) at that index of the
native iteration order, is the 2-point line from the centroid of the
geometry indexed by the key value of u to the centroid of the geometry
indexed by the key value of v. -/
theorem centerline_endpoints_exact (γ δ : Type) (c : γ → δ) (G : GGraph)
    (shp : List (GRow γ)) (key : String)
    (hwf : ∀ e ∈ G.edges, e.1 ∈ G.nodes ∧ e.2 ∈ G.nodes)
    (hcov : ∀ n ∈ G.nodes, ∃ r ∈ shp, r.cols key = G.attrs n key) :
    ∃ l, edges_to_gdf c G shp key = some l ∧ l.length = G.edges.length ∧
      ∀ (i : Nat) (u v : Int), G.edges[i]? = some (u, v) →
        ∃ g1 g2, buildKeyDict shp key (G.attrs u key) = some g1 ∧
          buildKeyDict shp key (G.attrs v key) = some g2 ∧
          l[i]? = some [c g1, c g2] := by
  obtain ⟨gs, hgs, hglen, hidx⟩ := lookupPairs_spec (buildKeyDict shp key) (edgeKeys G key)
    (edgeKeys_cov G shp key hwf hcov)
  have hklen : (edgeKeys G key).length = G.edges.length := by simp [edgeKeys]
  have hgeo : edges_geoms G shp key = some gs := hgs
  refine ⟨gs.map (fun p => [c p.1, c p.2]), ?_, ?_, ?_⟩
  · unfold edges_to_gdf
    rw [hgeo]
    rfl
  · rw [List.length_map, hglen, hklen]
  · intro i u v hiuv
    have hkey : (edgeKeys G key)[i]? = some (G.attrs u key, G.attrs v key) := by
      unfold edgeKeys
      rw [List.getElem?_map, hiuv]
      rfl
    obtain ⟨g1, g2, hg1, hg2, hgi⟩ := hidx i (G.attrs u key) (G.attrs v key) hkey
    refine ⟨g1, g2, hg1, hg2, ?_⟩
    rw [List.getElem?_map, hgi]
    rfl

/-- Witness for C4 at the concrete path graph exG3 and table exShp3. -/
theorem centerline_endpoints_exact_witness :
    ∃ l, edges_to_gdf (fun g : Nat => g + 100) exG3 exShp3 "k" = some l ∧
      l.length = exG3.edges.length ∧
      ∀ (i : Nat) (u v : Int), exG3.edges[i]? = some (u, v) →
        ∃ g1 g2, buildKeyDict exShp3 "k" (exG3.attrs u "k") = some g1 ∧
          buildKeyDict exShp3 "k" (exG3.attrs v "k") = some g2 ∧
          l[i]? = some [g1 + 100, g2 + 100] :=
  centerline_endpoints_exact Nat Nat (fun g => g + 100) exG3 exShp3 "k"
    (by decide) (by decide)

/-- C6: if the two key values are distinct, each resolves to exactly one
node, and no edge joins the resolved nodes, then adding the edge by
feature and removing it by feature returns the graph to its original
edge set. -/
theorem add_remove_edge_roundtrip (G : GGraph) (a b k : String)
    (hab : a ≠ b)
    (hu : ∃ n ∈ G.nodes, G.attrs n k = a)
    (hu1 : ∀ m ∈ G.nodes, ∀ n ∈ G.nodes, G.attrs m k = a → G.attrs n k = a → m = n)
    (hv : ∃ n ∈ G.nodes, G.attrs n k = b)
    (hv1 : ∀ m ∈ G.nodes, ∀ n ∈ G.nodes, G.attrs m k = b → G.attrs n k = b → m = n)
    (hedge : hasEdge G (find_node_by_key a G k) (find_node_by_key b G k) = false) :
    ∃ G1 G2, add_edge_by_feature G a b k = Except.ok G1 ∧
      remove_edge_by_feature G1 a b k = Except.ok G2 ∧ G2.edges = G.edges := by
  have hum := (findAux_resolves G.attrs a k G.nodes hu).1
  have hvm := (findAux_resolves G.attrs b k G.nodes hv).1
  have hadd := add_edge_of_mem G (find_node_by_key a G k) (find_node_by_key b G k)
    hum hvm hedge
  refine ⟨add_edge G (find_node_by_key a G k) (find_node_by_key b G k), G, rfl, ?_, rfl⟩
  rw [hadd]
  exact remove_added G (find_node_by_key a G k) (find_node_by_key b G k) hedge

/-- Witness for C6 at the concrete edgeless graph exG6: adding the edge
between the nodes keyed a and b and then removing it restores the empty
edge list. -/
theorem add_remove_edge_roundtrip_witness :
    ∃ G1 G2, add_edge_by_feature exG6 "a" "b" "k" = Except.ok G1 ∧
      remove_edge_by_feature G1 "a" "b" "k" = Except.ok G2 ∧ G2.edges = exG6.edges :=
  add_remove_edge_roundtrip exG6 "a" "b" "k" (by decide) (by decide) (by decide)
    (by decide) (by decide) (by decide)

/-- C7: marking the same pair twice with two values leaves every matched
row holding the second value (last write wins); and when the pair matches
no row of the table, no row is added (the row count is unchanged), no
stored value changes — the rows are exactly the original rows, up to the
initialization of a freshly created mark column to 0 — and when the mark
column already exists the table is returned entirely unchanged. -/
theorem mark_edges_last_write_and_noop (t : ETable) (u v col : String) (v1 v2 val : Int) :
    (∀ r ∈ (mark_edges (mark_edges t [(u, v)] col v1) [(u, v)] col v2).rows,
        rowMatches u v r → r.cols col = some v2) ∧
    ((∀ r ∈ t.rows, ¬ rowMatches u v r) →
      (mark_edges t [(u, v)] col val).rows.length = t.rows.length ∧
      (mark_edges t [(u, v)] col val).rows
          = (if col ∈ t.columns then t.rows else t.rows.map (fun r => setCol r col 0)) ∧
      (col ∈ t.columns → mark_edges t [(u, v)] col val = t)) := by
  constructor
  · intro r hr hmatch
    obtain ⟨r0, hr0, rfl⟩ := List.mem_map.mp hr
    refine markRow_cols_of_matches u v col v2 r0 ?_
    exact (rowMatches_congr u v (markRow u v col v2 r0) r0
      (markRow_endpoint_u u v col v2 r0) (markRow_endpoint_v u v col v2 r0)).mp hmatch
  · intro hnm
    by_cases hc : col ∈ t.columns
    · have hinit : initCol t col = t := by
        unfold initCol
        rw [if_pos hc]
      have hmap : (initCol t col).rows.map (markRow u v col val) = (initCol t col).rows := by
        apply map_id_of_mem
        intro r hr
        apply markRow_of_not_matches
        rw [hinit] at hr
        exact hnm r hr
      have heq : mark_edges t [(u, v)] col val = t := by
        rw [mark_edges_single, hmap, hinit]
      exact ⟨by rw [heq], by rw [heq, if_pos hc], fun _ => heq⟩
    · have hinit_rows : (initCol t col).rows = t.rows.map (fun r => setCol r col 0) := by
        unfold initCol
        rw [if_neg hc]
      have hnm2 : ∀ r ∈ (initCol t col).rows, ¬ rowMatches u v r := by
        rw [hinit_rows]
        intro r hr
        obtain ⟨r0, hr0, rfl⟩ := List.mem_map.mp hr
        intro hm
        exact hnm r0 hr0 ((rowMatches_congr u v (setCol r0 col 0) r0 rfl rfl).mp hm)
      have hmap : (initCol t col).rows.map (markRow u v col val) = (initCol t col).rows :=
        map_id_of_mem _ (fun r hr => markRow_of_not_matches u v col val r (hnm2 r hr))
      have hrows2 : (mark_edges t [(u, v)] col val).rows
          = t.rows.map (fun r => setCol r col 0) := by
        rw [mark_edges_single]
        show (initCol t col).rows.map (markRow u v col val) = _
        rw [hmap, hinit_rows]
      refine ⟨by rw [hrows2]; simp, by rw [hrows2, if_neg hc], fun hc2 => absurd hc2 hc⟩

/-- Witness for C7: at the concrete one-row table exTblAB, marking the
pair (a, b) with 5 and then 7 leaves 7 in the matched row; at the table
exTblM whose mark column m exists, marking the unmatched pair (x, y) is
the identity. -/
theorem mark_edges_last_write_and_noop_witness :
    (markRow "a" "b" "m" 7 (markRow "a" "b" "m" 5 (setCol exRowAB "m" 0))).cols "m"
        = some 7 ∧
    mark_edges exTblM [("x", "y")] "m" 9 = exTblM := by
  constructor
  · have hrows : (mark_edges (mark_edges exTblAB [("a", "b")] "m" 5) [("a", "b")] "m" 7).rows
        = [markRow "a" "b" "m" 7 (markRow "a" "b" "m" 5 (setCol exRowAB "m" 0))] := rfl
    refine (mark_edges_last_write_and_noop exTblAB "a" "b" "m" 5 7 9).1 _ ?_ (by decide)
    rw [hrows]
    exact List.mem_singleton_self _
  · exact ((mark_edges_last_write_and_noop exTblM "x" "y" "m" 5 7 9).2 (by decide)).2.2
      (by decide)

/-- C8: when the endpoint labels of every edge row resolve through the
graph to key values present in the feature table, shared_boundaries_gdf
succeeds with exactly one intersection row per input edge row, and the
output endpoint columns equal the input endpoint columns row for row. -/
theorem shared_boundaries_row_preservation (γ : Type) (f : γ → γ → γ) (G : GGraph)
    (g_shp : List (String × String)) (shp : List (GRow γ)) (key : String)
    (hres : ∀ uv ∈ g_shp,
      (buildKeyDict shp key (G.attrs (find_node_by_key uv.1 G key) key)).isSome ∧
      (buildKeyDict shp key (G.attrs (find_node_by_key uv.2 G key) key)).isSome) :
    ∃ l, shared_boundaries_gdf f G g_shp shp key = some l ∧
      l.length = g_shp.length ∧ l.map (fun r => r.2) = g_shp := by
  have hcov : ∀ kk ∈ (g_shp.map
      (fun uv => (find_node_by_key uv.1 G key, find_node_by_key uv.2 G key))).map
        (fun nn => (G.attrs nn.1 key, G.attrs nn.2 key)),
      (buildKeyDict shp key kk.1).isSome ∧ (buildKeyDict shp key kk.2).isSome := by
    intro kk hkk
    obtain ⟨nn, hnn, rfl⟩ := List.mem_map.mp hkk
    obtain ⟨uv, huv, rfl⟩ := List.mem_map.mp hnn
    exact hres uv huv
  obtain ⟨gs, hgs, hglen, _⟩ := lookupPairs_spec (buildKeyDict shp key) _ hcov
  have hlen2 : gs.length = g_shp.length := by
    rw [hglen, List.length_map, List.length_map]
  refine ⟨(gs.map (fun p => f p.1 p.2)).zip g_shp, ?_, ?_, ?_⟩
  · show (lookupPairs (buildKeyDict shp key)
        ((g_shp.map (fun uv => (find_node_by_key uv.1 G key, find_node_by_key uv.2 G key))).map
          (fun nn => (G.attrs nn.1 key, G.attrs nn.2 key)))).map
        (fun gs => (gs.map (fun p => f p.1 p.2)).zip g_shp)
      = some ((gs.map (fun p => f p.1 p.2)).zip g_shp)
    rw [hgs]
    rfl
  · rw [List.length_zip, List.length_map, hlen2]
    exact Nat.min_self _
  · apply List.map_snd_zip
    rw [List.length_map, hlen2]

/-- Witness for C8 at the concrete graph exG3 and its endpoint-labelled
edge rows. -/
theorem shared_boundaries_row_preservation_witness :
    ∃ l, shared_boundaries_gdf (fun x y => x + y) exG3 [("1", "2"), ("2", "3")]
        exShp3 "k" = some l ∧
      l.length = ([("1", "2"), ("2", "3")] : List (String × String)).length ∧
      l.map (fun r => r.2) = [("1", "2"), ("2", "3")] :=
  shared_boundaries_row_preservation Nat (fun x y => x + y) exG3
    [("1", "2"), ("2", "3")] exShp3 "k" (by decide)
